import Mathlib

/-!
Verification development for the `vm_manager.py` command-line tool: a libvirt/KVM
manager and OVA⇄QCOW2 converter.  The Python source is shallowly embedded:
text is modelled as `List Char`, external processes as explicit environment
records carrying their outcomes, the SQLite-backed path store as a list of
rows with a logical clock, and the filesystem side effects of each operation
as explicit state records.  All definitions are executable.
-/

namespace VmMgr

/-- Text is modelled as a list of characters (Python `str`). -/
abbrev Chars := List Char

/-- Characters of a string literal. -/
def strChars (s : String) : Chars := s.data

/-- The single error kind of the tool, `CommandError` in the source
(`class CommandError(RuntimeError)`). -/
structure CommandError where
  msg : String
deriving DecidableEq, Repr

/-! ## Generic substring machinery (Python's `in` operator on `str`,
occurrence counting for idempotence statements) -/

/-- Number of positions at which `pat` occurs in `l` (a position is an index
`p` with `l.drop p` starting with `pat`). -/
def countOcc (pat : Chars) : Chars → Nat
  | [] => if pat.isEmpty then 1 else 0
  | c :: rest => (if pat.isPrefixOf (c :: rest) then 1 else 0) + countOcc pat rest

/-- Boolean substring test; models Python `pat in text` for `str`. -/
def containsSub (pat : Chars) : Chars → Bool
  | [] => pat.isEmpty
  | c :: rest => pat.isPrefixOf (c :: rest) || containsSub pat rest

/-- `pat` occurs somewhere inside `l`. -/
def OccursIn (pat l : Chars) : Prop := ∃ x y, l = x ++ pat ++ y

theorem occursIn_sandwich (pat x y : Chars) : OccursIn pat (x ++ pat ++ y) := ⟨x, y, rfl⟩

theorem occursIn_append_right (pat l z : Chars) (h : OccursIn pat l) : OccursIn pat (l ++ z) := by
  obtain ⟨x, y, rfl⟩ := h
  exact ⟨x, y ++ z, by simp⟩

theorem occursIn_append_self (pat x : Chars) : OccursIn pat (x ++ pat) :=
  ⟨x, [], by simp⟩

theorem occursIn_cons (pat : Chars) (c : Char) (l : Chars) :
    OccursIn pat (c :: l) ↔ pat <+: (c :: l) ∨ OccursIn pat l := by
  constructor
  · rintro ⟨x, y, h⟩
    cases x with
    | nil => exact Or.inl ⟨y, by simpa using h.symm⟩
    | cons a x' =>
      simp only [List.cons_append] at h
      obtain ⟨rfl, h2⟩ := List.cons.inj h
      exact Or.inr ⟨x', y, h2⟩
  · rintro (⟨t, ht⟩ | ⟨x, y, rfl⟩)
    · exact ⟨[], t, by simpa using ht.symm⟩
    · exact ⟨c :: x, y, by simp⟩

theorem containsSub_iff (pat l : Chars) : containsSub pat l = true ↔ OccursIn pat l := by
  induction l with
  | nil =>
    simp only [containsSub, OccursIn, List.isEmpty_iff]
    constructor
    · rintro rfl; exact ⟨[], [], rfl⟩
    · rintro ⟨x, y, h⟩
      rcases List.append_eq_nil.mp ((List.append_eq_nil.mp h.symm).1) with ⟨_, h2⟩
      exact h2
  | cons c rest ih =>
    simp only [containsSub, Bool.or_eq_true, List.isPrefixOf_iff_prefix, ih, occursIn_cons]

theorem countOcc_pos_iff (pat l : Chars) : 0 < countOcc pat l ↔ containsSub pat l = true := by
  induction l with
  | nil =>
    simp only [countOcc, containsSub]
    by_cases h : pat.isEmpty <;> simp [h]
  | cons c rest ih =>
    simp only [countOcc, containsSub, Bool.or_eq_true]
    by_cases h : pat.isPrefixOf (c :: rest) <;> simp [h, ih]

theorem not_occursIn_of_containsSub_false (pat l : Chars) (h : containsSub pat l = false) :
    ¬ OccursIn pat l := fun hc => by
  rw [← containsSub_iff] at hc
  rw [h] at hc
  exact Bool.false_ne_true hc

theorem countOcc_short (pat l : Chars) (h : l.length < pat.length) : countOcc pat l = 0 := by
  induction l with
  | nil =>
    have : ¬ pat.isEmpty := by
      cases pat with
      | nil => simp at h
      | cons a t => simp
    simp [countOcc, this]
  | cons c rest ih =>
    have hnp : pat.isPrefixOf (c :: rest) = false := by
      by_contra hb
      have hp : pat <+: (c :: rest) :=
        List.isPrefixOf_iff_prefix.mp (Bool.of_not_eq_false hb)
      exact absurd hp.length_le (by omega)
    have hr : rest.length < pat.length := by simp at h; omega
    simp [countOcc, hnp, ih hr]

theorem countOcc_le_append (pat l z : Chars) : countOcc pat l ≤ countOcc pat (l ++ z) := by
  induction l with
  | nil =>
    cases pat with
    | nil =>
      have : 1 ≤ countOcc [] z := by
        cases z with
        | nil => simp [countOcc]
        | cons c rest => simp [countOcc, List.isPrefixOf]
      simpa [countOcc] using this
    | cons a t => simp [countOcc]
  | cons c rest ih =>
    simp only [List.cons_append, countOcc]
    have hmono : (if pat.isPrefixOf (c :: rest) then 1 else 0) ≤
        (if pat.isPrefixOf (c :: (rest ++ z)) then 1 else 0) := by
      by_cases hp : pat.isPrefixOf (c :: rest) = true
      · have h1 : pat <+: (c :: rest) := List.isPrefixOf_iff_prefix.mp hp
        have h2 : pat <+: (c :: rest) ++ z := h1.trans (List.prefix_append _ _)
        rw [List.cons_append] at h2
        simp [hp, List.isPrefixOf_iff_prefix.mpr h2]
      · simp [hp]
    exact Nat.add_le_add hmono ih

/-- The prefix test at a position strictly left of the final copy does not
see the final character. -/
theorem isPrefixOf_append_dropLast (pat t : Chars) (ht : t ≠ []) :
    pat.isPrefixOf (t ++ pat) = pat.isPrefixOf (t ++ pat.dropLast) := by
  have key : (t ++ pat).take pat.length = (t ++ pat.dropLast).take pat.length := by
    rw [List.take_append_eq_append_take, List.take_append_eq_append_take]
    congr 1
    rw [List.dropLast_eq_take, List.take_take]
    congr 1
    have htlen : 1 ≤ t.length := by
      cases t with
      | nil => exact absurd rfl ht
      | cons a b => simp
    omega
  by_cases h1 : pat.isPrefixOf (t ++ pat) = true
  · have hp := List.isPrefixOf_iff_prefix.mp h1
    rw [List.prefix_iff_eq_take] at hp
    have : pat <+: (t ++ pat.dropLast) := by
      rw [List.prefix_iff_eq_take, ← key]
      exact hp
    rw [h1, (List.isPrefixOf_iff_prefix.mpr this)]
  · have h1' : pat.isPrefixOf (t ++ pat) = false := Bool.of_not_eq_true h1
    by_cases h2 : pat.isPrefixOf (t ++ pat.dropLast) = true
    · exfalso
      have hp := List.isPrefixOf_iff_prefix.mp h2
      rw [List.prefix_iff_eq_take] at hp
      have : pat <+: (t ++ pat) := by
        rw [List.prefix_iff_eq_take, key]
        exact hp
      rw [List.isPrefixOf_iff_prefix.mpr this] at h1'
      simp at h1'
    · rw [h1', Bool.of_not_eq_true h2]

/-- Appending a fresh copy of `pat` to any nonempty text adds exactly one
occurrence beyond those already visible before the final character. -/
theorem countOcc_append_self (pat : Chars) (hp : pat ≠ []) :
    ∀ x : Chars, x ≠ [] → countOcc pat (x ++ pat) = countOcc pat (x ++ pat.dropLast) + 1 := by
  intro x
  induction x with
  | nil => intro hx; exact absurd rfl hx
  | cons c x' ih =>
    intro _
    have hpref : pat.isPrefixOf ((c :: x') ++ pat) =
        pat.isPrefixOf ((c :: x') ++ pat.dropLast) :=
      isPrefixOf_append_dropLast _ _ (by simp)
    have h1 : countOcc pat ((c :: x') ++ pat) =
        (if pat.isPrefixOf ((c :: x') ++ pat) then 1 else 0) + countOcc pat (x' ++ pat) := rfl
    have h2 : countOcc pat ((c :: x') ++ pat.dropLast) =
        (if pat.isPrefixOf ((c :: x') ++ pat.dropLast) then 1 else 0) +
          countOcc pat (x' ++ pat.dropLast) := rfl
    by_cases hx' : x' = []
    · subst hx'
      have hone : countOcc pat ([] ++ pat) = 1 := by
        simp only [List.nil_append]
        obtain ⟨a, t, rfl⟩ := List.exists_cons_of_ne_nil hp
        have htail : countOcc (a :: t) t = 0 := countOcc_short _ _ (by simp)
        have hself : (a :: t).isPrefixOf (a :: t) = true :=
          List.isPrefixOf_iff_prefix.mpr (List.prefix_refl _)
        show (if (a :: t).isPrefixOf (a :: t) then 1 else 0) + countOcc (a :: t) t = 1
        simp [hself, htail]
      have hzero : countOcc pat ([] ++ pat.dropLast) = 0 := by
        simp only [List.nil_append]
        apply countOcc_short
        rw [List.length_dropLast]
        have hlen : 1 ≤ pat.length := by
          cases pat with
          | nil => exact absurd rfl hp
          | cons a t => simp
        omega
      rw [h1, h2, hpref, hone, hzero]
    · rw [h1, h2, hpref, ih hx']
      omega

/-- An occurrence of a newline-free pattern in `a ++ '\n' :: b` lies entirely
inside `a` or entirely inside `b`. -/
theorem occursIn_split_nl (pat a b : Chars) (hnl : '\n' ∉ pat) :
    OccursIn pat (a ++ '\n' :: b) → OccursIn pat a ∨ OccursIn pat b := by
  rintro ⟨x, y, h⟩
  rw [List.append_assoc] at h
  rcases List.append_eq_append_iff.mp h with ⟨a', ha1, ha2⟩ | ⟨c', hc1, hc2⟩
  · -- x = a ++ a', '\n' :: b = a' ++ (pat ++ y)
    cases a' with
    | nil =>
      simp only [List.nil_append] at ha2
      cases pat with
      | nil => exact Or.inl ⟨a, [], by simp⟩
      | cons p ps =>
        obtain ⟨hp, _⟩ := List.cons.inj ha2
        exact absurd (hp ▸ List.mem_cons_self p ps) hnl
    | cons d a'' =>
      rw [List.cons_append] at ha2
      obtain ⟨_, hb⟩ := List.cons.inj ha2
      rw [← List.append_assoc] at hb
      exact Or.inr ⟨a'', y, hb⟩
  · -- a = x ++ c', pat ++ y = c' ++ ('\n' :: b)
    rcases List.append_eq_append_iff.mp hc2.symm with ⟨a', ha1, ha2⟩ | ⟨c'', hg1, _⟩
    · -- pat = c' ++ a', '\n' :: b = a' ++ y
      cases a' with
      | nil =>
        simp only [List.append_nil] at ha1
        subst ha1
        exact Or.inl ⟨x, [], by simpa using hc1⟩
      | cons d r =>
        obtain ⟨hd, _⟩ := List.cons.inj ha2
        have : '\n' ∈ pat := by
          rw [ha1, ← hd]
          simp
        exact absurd this hnl
    · -- c' = pat ++ c''
      subst hg1
      rw [← List.append_assoc] at hc1
      exact Or.inl ⟨x, c'', hc1⟩

/-! ## Line splitting and stripping (Python `str.splitlines`, `str.strip`,
restricted to `'\n'` line boundaries and ASCII whitespace) -/

/-- Python `text.splitlines()` with `'\n'` boundaries: no trailing empty
line for newline-terminated text, `[]` for empty text. -/
def splitNL : Chars → List Chars
  | [] => []
  | c :: rest =>
    if c = '\n' then [] :: splitNL rest
    else
      match splitNL rest with
      | [] => [[c]]
      | l :: ls => (c :: l) :: ls

theorem splitNL_ne_nil (l : Chars) (h : l ≠ []) : splitNL l ≠ [] := by
  cases l with
  | nil => exact absurd rfl h
  | cons c rest =>
    by_cases hc : c = '\n'
    · simp [splitNL, hc]
    · cases hr : splitNL rest <;> simp [splitNL, hc, hr]

theorem splitNL_eq_nil_iff (l : Chars) : splitNL l = [] ↔ l = [] := by
  constructor
  · intro h
    by_contra hne
    exact splitNL_ne_nil l hne h
  · rintro rfl; rfl

theorem splitNL_cons_nl (rest : Chars) : splitNL ('\n' :: rest) = [] :: splitNL rest := by
  simp [splitNL]

theorem splitNL_cons_other (c : Char) (rest : Chars) (hc : c ≠ '\n') :
    splitNL (c :: rest) =
      match splitNL rest with
      | [] => [[c]]
      | l :: ls => (c :: l) :: ls := by
  simp [splitNL, hc]

/-- Splitting text around an internal newline. -/
theorem splitNL_append_nl (a b : Chars) :
    splitNL (a ++ '\n' :: b) = splitNL (a ++ ['\n']) ++ splitNL b := by
  induction a with
  | nil => simp [splitNL]
  | cons c a' ih =>
    by_cases hc : c = '\n'
    · subst hc
      simp only [List.cons_append, splitNL_cons_nl, ih]
    · have hne : splitNL (a' ++ ['\n']) ≠ [] := splitNL_ne_nil _ (by simp)
      obtain ⟨l, ls, hls⟩ := List.exists_cons_of_ne_nil hne
      simp only [List.cons_append, splitNL_cons_other c _ hc, ih, hls]

/-- A trailing newline either leaves the line list unchanged or appends one
empty line. -/
theorem splitNL_append_single_nl (a : Chars) :
    splitNL (a ++ ['\n']) = splitNL a ∨ splitNL (a ++ ['\n']) = splitNL a ++ [[]] := by
  induction a with
  | nil => right; simp [splitNL]
  | cons c a' ih =>
    by_cases hc : c = '\n'
    · subst hc
      rcases ih with h | h
      · left; simp only [List.cons_append, splitNL_cons_nl, h]
      · right; simp only [List.cons_append, splitNL_cons_nl, h]
    · rcases ih with h | h
      · -- splitNL (a' ++ ['\n']) = splitNL a'; then a' ≠ [] forced
        cases ha' : splitNL a' with
        | nil =>
          exfalso
          have hanil : a' = [] := (splitNL_eq_nil_iff a').mp ha'
          subst hanil
          rw [ha'] at h
          exact splitNL_ne_nil ([] ++ ['\n']) (by simp) h
        | cons l ls =>
          left
          rw [ha'] at h
          simp only [List.cons_append, splitNL_cons_other c _ hc, h, ha']
      · cases ha' : splitNL a' with
        | nil =>
          left
          have hanil : a' = [] := (splitNL_eq_nil_iff a').mp ha'
          subst hanil
          simp [splitNL, hc]
        | cons l ls =>
          right
          rw [ha'] at h
          simp only [List.cons_append, splitNL_cons_other c _ hc, h, ha']

/-- ASCII whitespace as stripped by Python `str.strip()`. -/
def pyIsSpace (c : Char) : Bool :=
  c = ' ' || c = '\t' || c = '\n' || c = '\r' || c = '\x0b' || c = '\x0c'

/-- Python `line.strip()` (ASCII whitespace). -/
def stripChars (l : Chars) : Chars :=
  ((l.dropWhile pyIsSpace).reverse.dropWhile pyIsSpace).reverse

/-- Join a list of lines with `'\n'` separators. -/
def joinNL : List Chars → Chars
  | [] => []
  | [l] => l
  | l :: ls => l ++ '\n' :: joinNL ls

theorem occursIn_mem (pat l : Chars) (c : Char) (h : OccursIn pat l) (hc : c ∈ pat) : c ∈ l := by
  obtain ⟨x, y, rfl⟩ := h
  simp [hc]

/-- A nonempty newline-free pattern absent from every line is absent from the
joined text. -/
theorem not_occursIn_joinNL (pat : Chars) (hne : pat ≠ []) (hnl : '\n' ∉ pat) :
    ∀ L : List Chars, (∀ line ∈ L, ¬ OccursIn pat line) → ¬ OccursIn pat (joinNL L) := by
  intro L
  induction L with
  | nil =>
    intro _ hocc
    obtain ⟨x, y, h⟩ := hocc
    rcases List.append_eq_nil.mp (List.append_eq_nil.mp h.symm).1 with ⟨_, h2⟩
    exact hne h2
  | cons l ls ih =>
    intro hall hocc
    cases ls with
    | nil => exact hall l (by simp) hocc
    | cons l' ls' =>
      have hj : joinNL (l :: l' :: ls') = l ++ '\n' :: joinNL (l' :: ls') := rfl
      rw [hj] at hocc
      rcases occursIn_split_nl pat _ _ hnl hocc with h | h
      · exact hall l (by simp) h
      · exact ih (fun line hm => hall line (by simp [hm])) h

/-! ## Path Store (`class PathStore`, SQLite table `paths`)

The table has `key TEXT PRIMARY KEY, value TEXT NOT NULL, updated_at DATETIME`;
`set` is an upsert refreshing `updated_at` to the current time, `get` selects
the value for a key, `all` selects every row `ORDER BY updated_at DESC`.
Rows are modelled as a list, `CURRENT_TIMESTAMP` as a strictly increasing
logical clock, and the descending `ORDER BY` as an insertion sort. -/

structure PathRow where
  key : String
  value : String
  updatedAt : Nat
deriving DecidableEq, Repr

structure Store where
  rows : List PathRow
  clock : Nat
deriving DecidableEq, Repr

/-- Effect of the upsert on the row list: an existing row for the key is
replaced in place, otherwise a fresh row is inserted. -/
def upsertRows (rows : List PathRow) (k v : String) (t : Nat) : List PathRow :=
  if rows.any (fun r => r.key == k) then
    rows.map (fun r => if r.key == k then { key := k, value := v, updatedAt := t } else r)
  else
    rows ++ [{ key := k, value := v, updatedAt := t }]

/-- `INSERT ... ON CONFLICT(key) DO UPDATE SET value=excluded.value,
updated_at=CURRENT_TIMESTAMP`. -/
def Store.set (s : Store) (k v : String) : Store :=
  { rows := upsertRows s.rows k v (s.clock + 1), clock := s.clock + 1 }

/-- `SELECT value FROM paths WHERE key=?` (first row or `None`). -/
def Store.get (s : Store) (k : String) : Option String :=
  (s.rows.find? (fun r => r.key == k)).map (fun r => r.value)

/-- Descending order on `updated_at`, as in `ORDER BY updated_at DESC`. -/
def rowDesc (a b : PathRow) : Prop := b.updatedAt ≤ a.updatedAt

instance : DecidableRel rowDesc := fun a b => Nat.decLe b.updatedAt a.updatedAt

instance : IsTotal PathRow rowDesc := ⟨fun a b => Nat.le_total b.updatedAt a.updatedAt⟩

instance : IsTrans PathRow rowDesc := ⟨fun _ _ _ h1 h2 => Nat.le_trans h2 h1⟩

/-- `SELECT key, value, updated_at FROM paths ORDER BY updated_at DESC`. -/
def Store.all (s : Store) : List PathRow := List.insertionSort rowDesc s.rows

/-- The `PRIMARY KEY` invariant of the SQLite table: one row per key. -/
def Store.WF (s : Store) : Prop := (s.rows.map (fun r => r.key)).Nodup

instance (s : Store) : Decidable s.WF := by
  unfold Store.WF
  infer_instance

theorem find_upsert (k v : String) (t : Nat) (rows : List PathRow) :
    (upsertRows rows k v t).find? (fun r => r.key == k) =
      some { key := k, value := v, updatedAt := t } := by
  induction rows with
  | nil =>
    simp only [upsertRows, List.any_nil, Bool.false_eq_true, if_false, List.nil_append]
    exact List.find?_cons_of_pos _ (by simp)
  | cons r rest ih =>
    by_cases hk : (r.key == k) = true
    · have hany : ((r :: rest).any fun r => r.key == k) = true := by
        simp [List.any_cons, hk]
      simp only [upsertRows, hany, if_true, List.map_cons, hk, if_pos]
      exact List.find?_cons_of_pos _ (by simp)
    · have hkf : (r.key == k) = false := Bool.of_not_eq_true hk
      by_cases hrest : (rest.any fun r => r.key == k) = true
      · have hany : ((r :: rest).any fun r => r.key == k) = true := by
          simp [List.any_cons, hrest]
        have ihx : (upsertRows rest k v t).find? (fun r => r.key == k) =
            some { key := k, value := v, updatedAt := t } := ih
        rw [upsertRows, if_pos hrest] at ihx
        simp only [upsertRows, hany, if_true, List.map_cons, hkf, Bool.false_eq_true, if_false]
        rw [List.find?_cons_of_neg _ (by simp [hkf]), ihx]
      · have hrf : (rest.any fun r => r.key == k) = false := Bool.of_not_eq_true hrest
        have hany : ((r :: rest).any fun r => r.key == k) = false := by
          simp [List.any_cons, hkf, hrf]
        have ihx : (upsertRows rest k v t).find? (fun r => r.key == k) =
            some { key := k, value := v, updatedAt := t } := ih
        rw [upsertRows, if_neg (by simp [hrf])] at ihx
        simp only [upsertRows, hany, Bool.false_eq_true, if_false, List.cons_append]
        rw [List.find?_cons_of_neg _ (by simp [hkf]), ihx]

theorem keys_upsert_mem (k v : String) (t : Nat) (rows : List PathRow)
    (h : (rows.any fun r => r.key == k) = true) :
    (upsertRows rows k v t).map (fun r => r.key) = rows.map (fun r => r.key) := by
  rw [upsertRows, if_pos h, List.map_map]
  apply List.map_congr_left
  intro r _
  by_cases hk : (r.key == k) = true
  · simp only [Function.comp, hk, if_pos]
    exact (beq_iff_eq.mp hk).symm
  · simp [Function.comp, Bool.of_not_eq_true hk]

theorem keys_upsert_new (k v : String) (t : Nat) (rows : List PathRow)
    (h : (rows.any fun r => r.key == k) = false) :
    (upsertRows rows k v t).map (fun r => r.key) = rows.map (fun r => r.key) ++ [k] := by
  rw [upsertRows, if_neg (by simp [h])]
  simp

theorem store_wf_set (s : Store) (k v : String) (hWF : s.WF) : (s.set k v).WF := by
  unfold Store.WF at hWF ⊢
  show ((upsertRows s.rows k v (s.clock + 1)).map (fun r => r.key)).Nodup
  by_cases h : (s.rows.any fun r => r.key == k) = true
  · rw [keys_upsert_mem k v _ _ h]
    exact hWF
  · have hf : (s.rows.any fun r => r.key == k) = false := Bool.of_not_eq_true h
    rw [keys_upsert_new k v _ _ hf]
    rw [List.nodup_append]
    refine ⟨hWF, List.nodup_singleton _, ?_⟩
    intro a ha hb
    simp only [List.mem_singleton] at hb
    subst hb
    obtain ⟨r, hr, hrk⟩ := List.mem_map.mp ha
    rw [List.any_eq_false] at hf
    exact hf r hr (by simp [hrk])

theorem filter_upsert (k v : String) (t : Nat) (rows : List PathRow)
    (hWF : (rows.map (fun r => r.key)).Nodup) :
    (upsertRows rows k v t).filter (fun r => r.key == k) =
      [{ key := k, value := v, updatedAt := t }] := by
  induction rows with
  | nil =>
    simp only [upsertRows, List.any_nil, Bool.false_eq_true, if_false, List.nil_append]
    simp
  | cons r rest ih =>
    simp only [List.map_cons, List.nodup_cons] at hWF
    by_cases hk : (r.key == k) = true
    · have hkeq : r.key = k := beq_iff_eq.mp hk
      have hany : ((r :: rest).any fun r => r.key == k) = true := by
        simp [List.any_cons, hk]
      have hnok : ∀ x ∈ rest, (x.key == k) = false := by
        intro x hx
        by_contra hb
        have hxk : x.key = k := beq_iff_eq.mp (Bool.of_not_eq_false hb)
        exact hWF.1 (List.mem_map.mpr ⟨x, hx, by rw [hxk, hkeq]⟩)
      have hrest : (rest.map (fun r =>
          if r.key == k then ({ key := k, value := v, updatedAt := t } : PathRow)
          else r)).filter (fun r => r.key == k) = [] := by
        rw [List.filter_eq_nil_iff]
        intro x hx
        obtain ⟨r', hr', rfl⟩ := List.mem_map.mp hx
        simp [hnok r' hr']
      rw [upsertRows, if_pos hany]
      simp only [List.map_cons, hk, if_pos]
      rw [List.filter_cons_of_pos (by simp), hrest]
    · have hkf : (r.key == k) = false := Bool.of_not_eq_true hk
      by_cases hrest : (rest.any fun r => r.key == k) = true
      · have hany : ((r :: rest).any fun r => r.key == k) = true := by
          simp [List.any_cons, hrest]
        have ihx := ih hWF.2
        rw [upsertRows, if_pos hrest] at ihx
        rw [upsertRows, if_pos hany]
        simp only [List.map_cons, hkf, Bool.false_eq_true, if_false]
        rw [List.filter_cons_of_neg (by simp [hkf]), ihx]
      · have hrf : (rest.any fun r => r.key == k) = false := Bool.of_not_eq_true hrest
        have hany : ((r :: rest).any fun r => r.key == k) = false := by
          simp [List.any_cons, hkf, hrf]
        have ihx := ih hWF.2
        rw [upsertRows, if_neg (by simp [hrf])] at ihx
        rw [upsertRows, if_neg (by simp [hany]), List.cons_append]
        rw [List.filter_cons_of_neg (by simp [hkf]), ihx]

theorem store_get_set_self (s : Store) (k v : String) : (s.set k v).get k = some v := by
  show ((upsertRows s.rows k v (s.clock + 1)).find? (fun r => r.key == k)).map
      (fun r => r.value) = some v
  rw [find_upsert]
  rfl

/-- Claim C3: in the Path Store, `set` then `get` on the same key returns the
just-set value; a second `set` on the same key overwrites, leaving exactly one
row for that key (holding the second value); and `all()` returns all rows
ordered with the most-recently-updated row first. -/
theorem pathStore_set_get_overwrite_order (s : Store) (k v v' : String) (hWF : s.WF) :
    (s.set k v).get k = some v ∧
    ((s.set k v).set k v').get k = some v' ∧
    ((s.set k v).set k v').rows.filter (fun r => r.key == k) =
      [{ key := k, value := v', updatedAt := s.clock + 2 }] ∧
    List.Sorted rowDesc ((s.set k v).set k v').all ∧
    ((s.set k v).set k v').all.Perm ((s.set k v).set k v').rows := by
  refine ⟨store_get_set_self s k v, store_get_set_self _ k v', ?_, ?_, ?_⟩
  · have hWF1 : (s.set k v).WF := store_wf_set s k v hWF
    have hfil := filter_upsert k v' ((s.set k v).clock + 1) (s.set k v).rows hWF1
    show (upsertRows (s.set k v).rows k v' ((s.set k v).clock + 1)).filter
        (fun r => r.key == k) = _
    rw [hfil]
    rfl
  · exact List.sorted_insertionSort rowDesc _
  · exact List.perm_insertionSort rowDesc _

/-- Witness for claim C3 at a concrete store. -/
theorem pathStore_set_get_overwrite_order_witness :
    ((Store.mk [] 0).set "a" "x").get "a" = some "x" ∧
    (((Store.mk [] 0).set "a" "x").set "a" "y").get "a" = some "y" := by
  have h := pathStore_set_get_overwrite_order (Store.mk [] 0) "a" "x" "y" (by decide)
  exact ⟨h.1, h.2.1⟩

/-! ## Configuration validator (`VMManager.validate_vm_config`)

The method dumps the domain XML to a temporary file, runs
`virsh domxml-validate` on it without check, returns `[]` on exit code 0, and
otherwise returns `[line.strip() for line in (stderr + "\n" + stdout).splitlines()
if line.strip()]`.  The validator process outcome is the environment. -/

structure ValidatorRun where
  exitCode : Nat
  stdoutText : Chars
  stderrText : Chars
deriving DecidableEq, Repr

/-- The comprehension `[line.strip() for line in text.splitlines() if line.strip()]`. -/
def diagLines (text : Chars) : List Chars :=
  ((splitNL text).map stripChars).filter (fun l => !l.isEmpty)

def validateVmConfig (r : ValidatorRun) : List Chars :=
  if r.exitCode = 0 then []
  else diagLines (r.stderrText ++ '\n' :: r.stdoutText)

theorem diagLines_append_single_nl (a : Chars) : diagLines (a ++ ['\n']) = diagLines a := by
  unfold diagLines
  rcases splitNL_append_single_nl a with h | h
  · rw [h]
  · rw [h]
    simp [stripChars]

theorem diagLines_append_nl (a b : Chars) :
    diagLines (a ++ '\n' :: b) = diagLines a ++ diagLines b := by
  have h1 : diagLines (a ++ '\n' :: b) = diagLines (a ++ ['\n']) ++ diagLines b := by
    unfold diagLines
    rw [splitNL_append_nl, List.map_append, List.filter_append]
  rw [h1, diagLines_append_single_nl]

/-- Claim C4 counterexample: on exit code 1 with empty output the validator
run yields an empty diagnostic list, so "empty iff exit code 0" fails. -/
theorem validate_empty_iff_counterexample :
    validateVmConfig { exitCode := 1, stdoutText := [], stderrText := [] } = [] ∧
    (1 : Nat) ≠ 0 := by
  constructor
  · rfl
  · decide

/-- Claim C4 (amended): `validate` returns `[]` whenever the validator exits 0;
on nonzero exit it returns, without raising, the stripped non-blank lines of
the combined stderr+stdout text in order — all stderr diagnostics before all
stdout diagnostics — and every returned line is non-blank.  (In particular the
result may also be `[]` on nonzero exit when the combined output has no
non-blank line, so "empty iff exit 0" does not hold.) -/
theorem validate_exit_and_diag_order (r : ValidatorRun) :
    (r.exitCode = 0 → validateVmConfig r = []) ∧
    (r.exitCode ≠ 0 →
      validateVmConfig r = diagLines r.stderrText ++ diagLines r.stdoutText) ∧
    (∀ l ∈ validateVmConfig r, l ≠ []) := by
  refine ⟨?_, ?_, ?_⟩
  · intro h
    simp [validateVmConfig, h]
  · intro h
    rw [validateVmConfig, if_neg h]
    exact diagLines_append_nl _ _
  · intro l hl
    unfold validateVmConfig at hl
    by_cases h0 : r.exitCode = 0
    · rw [if_pos h0] at hl
      exact absurd hl (List.not_mem_nil l)
    · rw [if_neg h0] at hl
      have := (List.mem_filter.mp hl).2
      simpa using this

/-- Witness for the amended claim C4 at a concrete failing validator run. -/
theorem validate_exit_and_diag_order_witness :
    validateVmConfig
        { exitCode := 2, stdoutText := strChars " out issue ",
          stderrText := strChars "err issue" } =
      diagLines (strChars "err issue") ++ diagLines (strChars " out issue ") := by
  exact (validate_exit_and_diag_order _).2.1 (by decide)

/-! ## VM lifecycle control (`VMManager.delete_vm`)

`delete_vm` queries `virsh domstate`, issues `virsh destroy` when the stripped
lower-cased state contains "running", swallows `CommandError` from either, then
issues `virsh undefine <name> --nvram` (plus `--remove-all-storage` when
requested), whose failure propagates.  The environment records the outcome of
each external command; the returned trace lists the commands issued. -/

structure DeleteEnv where
  domstate : Except CommandError String
  destroyFails : Bool
  undefineFails : Bool

def undefineCmd (name : String) (removeStorage : Bool) : List String :=
  ["virsh", "undefine", name, "--nvram"] ++
    (if removeStorage then ["--remove-all-storage"] else [])

/-- Commands issued and final outcome of `delete_vm`.  A `domstate` failure
aborts the try-block before `destroy` (exception caught, `pass`); a `destroy`
failure is likewise caught, so neither affects the result, which only reflects
the unconditional `undefine` step. -/
def deleteVm (env : DeleteEnv) (name : String) (removeStorage : Bool) :
    List (List String) × Except CommandError Unit :=
  let preCmds : List (List String) :=
    match env.domstate with
    | .error _ => [["virsh", "domstate", name]]
    | .ok out =>
      if containsSub (strChars "running") ((stripChars (strChars out)).map Char.toLower) then
        [["virsh", "domstate", name], ["virsh", "destroy", name]]
      else
        [["virsh", "domstate", name]]
  (preCmds ++ [undefineCmd name removeStorage],
   if env.undefineFails then .error { msg := "undefine falló" } else .ok ())

/-- Claim C5: the undefine command always carries `--nvram` and carries
`--remove-all-storage` exactly when `remove_storage` is set; failures of the
preceding state query or stop command are swallowed (the outcome depends only
on the undefine step), while an undefine failure is propagated. -/
theorem deleteVm_flags_and_propagation (env : DeleteEnv) (name : String) (rs : Bool)
    (hname : name ≠ "--remove-all-storage") :
    undefineCmd name rs ∈ (deleteVm env name rs).1 ∧
    "--nvram" ∈ undefineCmd name rs ∧
    ("--remove-all-storage" ∈ undefineCmd name rs ↔ rs = true) ∧
    ((deleteVm env name rs).2 = .ok () ↔ env.undefineFails = false) := by
  refine ⟨?_, ?_, ?_, ?_⟩
  · show undefineCmd name rs ∈ _ ++ [undefineCmd name rs]
    simp
  · simp [undefineCmd]
  · cases rs with
    | true => simp [undefineCmd]
    | false =>
      constructor
      · intro h
        simp only [undefineCmd, Bool.false_eq_true, if_false, List.append_nil,
          List.mem_cons, List.not_mem_nil, or_false] at h
        rcases h with h | h | h | h
        · exact absurd h (by decide)
        · exact absurd h (by decide)
        · exact (hname h.symm).elim
        · exact absurd h (by decide)
      · intro h
        exact absurd h (by decide)
  · cases henv : env.undefineFails <;> simp [deleteVm, henv]

/-- Witness for claim C5: destroy and state query fail, undefine succeeds. -/
theorem deleteVm_flags_and_propagation_witness :
    undefineCmd "vm1" true ∈
      (deleteVm ⟨.error { msg := "domstate falló" }, true, false⟩ "vm1" true).1 ∧
    ("--remove-all-storage" ∈ undefineCmd "vm1" true ↔ true = true) ∧
    ((deleteVm ⟨.error { msg := "domstate falló" }, true, false⟩ "vm1" true).2 = .ok () ↔
      false = false) := by
  have h := deleteVm_flags_and_propagation
    ⟨.error { msg := "domstate falló" }, true, false⟩ "vm1" true (by decide)
  exact ⟨h.1, h.2.2.1, h.2.2.2⟩

/-! ## VM inventory and inspection (`VMManager.list_vms`, `VMManager.os_details`)

Both methods parse `virsh dominfo` output line by line: a line containing a
colon is split at the first colon into a stripped key and value stored in a
dict (assignment overwrites); other lines are skipped.  `os_details` also
scans `virsh dumpxml` output for the first stripped line starting with
`<type` and containing `</type>`, extracting the tag text and an optional
`arch="..."` attribute.  The literal default in the source is the Spanish
string "desconocido". -/

def desconocido : Chars := strChars "desconocido"

/-- Python dict assignment `d[k] = v` on an association list. -/
def dictUpsert (d : List (Chars × Chars)) (k v : Chars) : List (Chars × Chars) :=
  if d.any (fun p => p.1 == k) then
    d.map (fun p => if p.1 == k then (k, v) else p)
  else d ++ [(k, v)]

/-- Python `d.get(k)`. -/
def dictGet (d : List (Chars × Chars)) (k : Chars) : Option Chars :=
  (d.find? (fun p => p.1 == k)).map (fun p => p.2)

/-- The loop `for line in info.splitlines(): if ":" in line: key, value =
line.split(":", 1); d[key.strip()] = value.strip()`. -/
def parseKVInto (init : List (Chars × Chars)) (text : Chars) : List (Chars × Chars) :=
  (splitNL text).foldl
    (fun d line =>
      if ':' ∈ line then
        dictUpsert d (stripChars (line.takeWhile (fun c => c != ':')))
          (stripChars ((line.dropWhile (fun c => c != ':')).drop 1))
      else d) init

def parseKVLines (text : Chars) : List (Chars × Chars) := parseKVInto [] text

structure VmSummary where
  name : Chars
  state : Chars
  osType : Chars
deriving DecidableEq, Repr

/-- Environment for `list_vms`: stdout of `virsh list --all --name` and of
`virsh dominfo <name>` for each name. -/
structure ListEnv where
  listOutput : Chars
  dominfoOf : Chars → Chars

def vmSummaryOf (name dominfoText : Chars) : VmSummary :=
  let d := parseKVLines dominfoText
  { name := name,
    state := (dictGet d (strChars "State")).getD desconocido,
    osType := (dictGet d (strChars "OS Type")).getD desconocido }

def listVms (env : ListEnv) : List VmSummary :=
  (((splitNL env.listOutput).map stripChars).filter (fun l => !l.isEmpty)).map
    (fun n => vmSummaryOf n (env.dominfoOf n))

/-- First stripped dumpxml line starting with `<type` and containing `</type>`. -/
def typeLineOf (dumpxml : Chars) : Option Chars :=
  ((splitNL dumpxml).map stripChars).find?
    (fun l => (strChars "<type").isPrefixOf l && containsSub (strChars "</type>") l)

/-- Python `text.split(pat)[0]`: everything before the first occurrence of
`pat` (the whole text if absent). -/
def seqSplitBefore (pat : Chars) : Chars → Chars
  | [] => []
  | c :: rest => if pat.isPrefixOf (c :: rest) then [] else c :: seqSplitBefore pat rest

/-- Python `text.split(pat, 1)[1]`: everything after the first occurrence of
`pat` (meaningful only when `pat` occurs). -/
def seqSplitAfter (pat : Chars) : Chars → Chars
  | [] => []
  | c :: rest => if pat.isPrefixOf (c :: rest) then (c :: rest).drop pat.length
      else seqSplitAfter pat rest

/-- Guest OS type and architecture extracted from dumpxml:
`line.split(">", 1)[1].split("</type>")[0]` and, when `arch="` occurs,
`line.split('arch="', 1)[1].split('"', 1)[0]`; both default to "desconocido". -/
def osArchOf (dumpxml : Chars) : Chars × Chars :=
  match typeLineOf dumpxml with
  | none => (desconocido, desconocido)
  | some line =>
    let osT := seqSplitBefore (strChars "</type>")
      ((line.dropWhile (fun c => c != '>')).drop 1)
    let arch :=
      if containsSub (strChars "arch=\"") line then
        (seqSplitAfter (strChars "arch=\"") line).takeWhile (fun c => c != '"')
      else desconocido
    (osT, arch)

/-- `os_details`: dominfo parsed into a dict seeded with `name`, merged with
the extracted guest OS and architecture. -/
def osDetails (name dominfoText dumpxmlText : Chars) : List (Chars × Chars) :=
  let info := parseKVInto [(strChars "name", name)] dominfoText
  let oa := osArchOf dumpxmlText
  dictUpsert (dictUpsert info (strChars "Guest OS") oa.1) (strChars "Architecture") oa.2

/-- Claim C7 counterexample: with an empty dominfo the summary fields are the
literal "desconocido", not the string "unknown" asserted by the claim. -/
theorem listVms_unknown_counterexample :
    listVms { listOutput := strChars "vm1", dominfoOf := fun _ => [] } =
      [{ name := strChars "vm1", state := desconocido, osType := desconocido }] ∧
    desconocido ≠ strChars "unknown" := by
  constructor
  · rfl
  · decide

/-- Claim C7 (amended): when the parsed dominfo mapping lacks "OS Type" or
"State", the corresponding `list_vms` summary field is the literal
"desconocido" (the source's Spanish for unknown, not the English string
"unknown"); likewise `os_details` yields "desconocido" for both guest OS and
architecture when the dumpxml has no matching type tag, and "desconocido" for
the architecture when the matching type line lacks an `arch="` attribute. -/
theorem listVms_osDetails_defaults (env : ListEnv) (x : Chars) :
    (∀ s ∈ listVms env,
      (dictGet (parseKVLines (env.dominfoOf s.name)) (strChars "OS Type") = none →
        s.osType = desconocido) ∧
      (dictGet (parseKVLines (env.dominfoOf s.name)) (strChars "State") = none →
        s.state = desconocido)) ∧
    (typeLineOf x = none → osArchOf x = (desconocido, desconocido)) ∧
    (∀ line, typeLineOf x = some line →
      containsSub (strChars "arch=\"") line = false →
      (osArchOf x).2 = desconocido) := by
  refine ⟨?_, ?_, ?_⟩
  · intro s hs
    obtain ⟨n, _, rfl⟩ := List.mem_map.mp hs
    constructor
    · intro h
      have hn : (vmSummaryOf n (env.dominfoOf n)).name = n := rfl
      rw [hn] at h
      simp [vmSummaryOf, h]
    · intro h
      have hn : (vmSummaryOf n (env.dominfoOf n)).name = n := rfl
      rw [hn] at h
      simp [vmSummaryOf, h]
  · intro h
    simp [osArchOf, h]
  · intro line hline harch
    simp [osArchOf, hline, harch]

/-- Witness for the amended claim C7, exercising an absent "OS Type" key, an
absent type tag, and a type tag without an `arch="` attribute. -/
theorem listVms_osDetails_defaults_witness :
    (vmSummaryOf (strChars "vm1") []).osType = desconocido ∧
    osArchOf [] = (desconocido, desconocido) ∧
    (osArchOf (strChars "<type>hvm</type>")).2 = desconocido := by
  have h := listVms_osDetails_defaults
    { listOutput := strChars "vm1", dominfoOf := fun _ => [] } []
  have h2 := listVms_osDetails_defaults
    { listOutput := strChars "vm1", dominfoOf := fun _ => [] } (strChars "<type>hvm</type>")
  refine ⟨?_, h.2.1 (by decide),
    h2.2.2 (strChars "<type>hvm</type>") (by decide) (by decide)⟩
  have hm := h.1 (vmSummaryOf (strChars "vm1") []) (by decide)
  exact hm.1 (by decide)

/-! ## Format converter, QCOW2 → OVA (`VMManager.qcow2_to_ova`)

The method converts the source to a stream-optimized VMDK, reads the
produced file's byte size, parses `qemu-img info --output=json` for
`virtual-size` (`int(info.get("virtual-size", 0))`), draws a fresh UUID,
renders the OVF template, and writes a tar containing the OVF then the VMDK.
Environment: outcomes of the two external commands, the VMDK bytes produced,
the parsed `virtual-size` field, and the drawn UUID. -/

structure QemuInfo where
  virtualSize : Option Int
deriving DecidableEq, Repr

structure Qcow2ToOvaEnv where
  convertOk : Bool
  vmdkBytes : Chars
  infoOk : Bool
  info : QemuInfo
  diskId : String
deriving DecidableEq, Repr

/-- The `ovf:size` attribute rendered into the descriptor. -/
def ovfSizeAttr (size : Nat) : Chars :=
  strChars "ovf:size=\"" ++ strChars (Nat.repr size) ++ strChars "\""

/-- The `ovf:capacity` attribute rendered into the descriptor. -/
def ovfCapacityAttr (capacity : Int) : Chars :=
  strChars "ovf:capacity=\"" ++ strChars (Int.repr capacity) ++ strChars "\""

/-- The dedented OVF template of the source, with its five interpolations
(`vmdk_name`, `vmdk_path.stat().st_size`, `disk_id`, `capacity`, `vm_name`). -/
def ovfDocument (vmdkName : String) (size : Nat) (diskId : String) (capacity : Int)
    (vmName : String) : Chars :=
  strChars "<?xml version=\"1.0\" encoding=\"UTF-8\"?>\n<Envelope xmlns=\"http://schemas.dmtf.org/ovf/envelope/1\"\n          xmlns:ovf=\"http://schemas.dmtf.org/ovf/envelope/1\">\n  <References>\n    <File ovf:id=\"file1\" ovf:href=\"" ++
  strChars vmdkName ++
  strChars "\" " ++ ovfSizeAttr size ++
  strChars "/>\n  </References>\n  <DiskSection>\n    <Info>Discos virtuales</Info>\n    <Disk ovf:diskId=\"" ++
  strChars diskId ++
  strChars "\" ovf:fileRef=\"file1\" " ++ ovfCapacityAttr capacity ++
  strChars " ovf:format=\"http://www.vmware.com/interfaces/specifications/vmdk.html#streamOptimized\"/>\n  </DiskSection>\n  <VirtualSystem ovf:id=\"" ++
  strChars vmName ++
  strChars "\">\n    <Info>Maquina virtual exportada</Info>\n    <OperatingSystemSection ovf:id=\"1\">\n      <Info>Sistema operativo invitado</Info>\n    </OperatingSystemSection>\n  </VirtualSystem>\n</Envelope>\n"

/-- Result: the tar members `(arcname, content)` in the order they are added
(`tar.add(ovf_path)` first, `tar.add(vmdk_path)` second). -/
def qcow2ToOva (env : Qcow2ToOvaEnv) (vmName : String) :
    Except CommandError (List (String × Chars)) :=
  if env.convertOk = false then .error { msg := "qemu-img convert falló" } else
  if env.infoOk = false then .error { msg := "qemu-img info falló" } else
  let capacity : Int := (env.info.virtualSize).getD 0
  let doc := ovfDocument (vmName ++ ".vmdk") env.vmdkBytes.length env.diskId capacity vmName
  .ok [(vmName ++ ".ovf", doc), (vmName ++ ".vmdk", env.vmdkBytes)]

/-- Claim C1: a successful `qcow2_to_ova` produces a tar whose first member is
`<vm_name>.ovf` and second is `<vm_name>.vmdk` (exactly two members); the
descriptor carries `ovf:size` equal to the byte size of the produced VMDK
member and `ovf:capacity` equal to the queried virtual-size, defaulting to 0
when that field is absent. -/
theorem qcow2ToOva_descriptor (env : Qcow2ToOvaEnv) (vmName : String)
    (r : List (String × Chars)) (h : qcow2ToOva env vmName = .ok r) :
    r.length = 2 ∧
    ∃ doc : Chars,
      r = [(vmName ++ ".ovf", doc), (vmName ++ ".vmdk", env.vmdkBytes)] ∧
      OccursIn (ovfSizeAttr env.vmdkBytes.length) doc ∧
      OccursIn (ovfCapacityAttr ((env.info.virtualSize).getD 0)) doc ∧
      (env.info.virtualSize = none → OccursIn (ovfCapacityAttr 0) doc) := by
  unfold qcow2ToOva at h
  by_cases hc : env.convertOk = false
  · rw [if_pos hc] at h
    exact absurd h (by simp)
  · rw [if_neg hc] at h
    by_cases hi : env.infoOk = false
    · rw [if_pos hi] at h
      exact absurd h (by simp)
    · rw [if_neg hi] at h
      have hr : r = [(vmName ++ ".ovf",
          ovfDocument (vmName ++ ".vmdk") env.vmdkBytes.length env.diskId
            ((env.info.virtualSize).getD 0) vmName),
          (vmName ++ ".vmdk", env.vmdkBytes)] := by
        cases h
        rfl
      subst hr
      refine ⟨rfl, _, rfl, ?_, ?_, ?_⟩
      · unfold ovfDocument
        apply occursIn_append_right
        apply occursIn_append_right
        apply occursIn_append_right
        apply occursIn_append_right
        apply occursIn_append_right
        apply occursIn_append_right
        apply occursIn_append_right
        exact occursIn_append_self _ _
      · unfold ovfDocument
        apply occursIn_append_right
        apply occursIn_append_right
        apply occursIn_append_right
        exact occursIn_append_self _ _
      · intro hnone
        rw [hnone]
        unfold ovfDocument
        apply occursIn_append_right
        apply occursIn_append_right
        apply occursIn_append_right
        exact occursIn_append_self _ _

/-- Witness for claim C1: a run whose info query lacks `virtual-size`. -/
theorem qcow2ToOva_descriptor_witness :
    qcow2ToOva ⟨true, strChars "DATA", true, ⟨none⟩, "d-1"⟩ "vm" =
      .ok [("vm" ++ ".ovf",
        ovfDocument ("vm" ++ ".vmdk") (strChars "DATA").length "d-1"
          ((none : Option Int).getD 0) "vm"),
        ("vm" ++ ".vmdk", strChars "DATA")] ∧
    ∃ doc : Chars,
      [("vm" ++ ".ovf",
        ovfDocument ("vm" ++ ".vmdk") (strChars "DATA").length "d-1"
          ((none : Option Int).getD 0) "vm"),
        ("vm" ++ ".vmdk", strChars "DATA")] =
        [("vm" ++ ".ovf", doc), ("vm" ++ ".vmdk", strChars "DATA")] ∧
      OccursIn (ovfSizeAttr (strChars "DATA").length) doc ∧
      OccursIn (ovfCapacityAttr (((⟨none⟩ : QemuInfo).virtualSize).getD 0)) doc ∧
      ((⟨none⟩ : QemuInfo).virtualSize = none → OccursIn (ovfCapacityAttr 0) doc) := by
  have h := qcow2ToOva_descriptor ⟨true, strChars "DATA", true, ⟨none⟩, "d-1"⟩ "vm"
    [("vm" ++ ".ovf",
      ovfDocument ("vm" ++ ".vmdk") (strChars "DATA").length "d-1"
        ((none : Option Int).getD 0) "vm"),
      ("vm" ++ ".vmdk", strChars "DATA")] rfl
  exact ⟨rfl, h.2⟩

/-! ## Format converter, OVA → QCOW2 (`VMManager.ova_to_qcow2`)

The method extracts the tar into a temporary directory, collects
`glob("*.vmdk") + glob("*.qcow2") + glob("*.img")`, raises `CommandError`
when the list is empty, and otherwise converts `candidates[0]` to qcow2 at
the requested output path.  Environment: the top-level file names found in
the extraction directory, in directory order. -/

structure OvaEnv where
  extracted : List Chars
deriving DecidableEq, Repr

/-- `tmp.glob("*.ext")`: the files whose name ends in the extension, in
directory order. -/
def globMatches (suf : Chars) (files : List Chars) : List Chars :=
  files.filter (fun f => suf.isSuffixOf f)

def diskCandidates (env : OvaEnv) : List Chars :=
  globMatches (strChars ".vmdk") env.extracted ++
    globMatches (strChars ".qcow2") env.extracted ++
    globMatches (strChars ".img") env.extracted

def charsStr (l : Chars) : String := String.mk l

/-- Result of `ova_to_qcow2`: the `qemu-img convert` invocation, or the
error raised when no compatible disk is found. -/
def ovaToQcow2 (env : OvaEnv) (outPath : String) : Except CommandError (List String) :=
  match diskCandidates env with
  | [] => .error { msg := "No se encontró disco compatible dentro del archivo OVA" }
  | c :: _ => .ok ["qemu-img", "convert", "-O", "qcow2", charsStr c, outPath]

/-- Claim C2: with no `*.vmdk`/`*.qcow2`/`*.img` entry the operation fails
with a `CommandError`; otherwise the converter is invoked targeting qcow2 at
the requested output, with the first match in the fixed search order (all
vmdk matches before qcow2 matches before img matches) as source. -/
theorem ovaToQcow2_selection (env : OvaEnv) (outPath : String) :
    ((∀ f ∈ env.extracted, (strChars ".vmdk").isSuffixOf f = false ∧
        (strChars ".qcow2").isSuffixOf f = false ∧
        (strChars ".img").isSuffixOf f = false) →
      ∃ m, ovaToQcow2 env outPath = .error m) ∧
    (∀ c, (globMatches (strChars ".vmdk") env.extracted).head? = some c →
      ovaToQcow2 env outPath = .ok ["qemu-img", "convert", "-O", "qcow2", charsStr c, outPath]) ∧
    (globMatches (strChars ".vmdk") env.extracted = [] →
      ∀ c, (globMatches (strChars ".qcow2") env.extracted).head? = some c →
        ovaToQcow2 env outPath =
          .ok ["qemu-img", "convert", "-O", "qcow2", charsStr c, outPath]) ∧
    (globMatches (strChars ".vmdk") env.extracted = [] →
      globMatches (strChars ".qcow2") env.extracted = [] →
      ∀ c, (globMatches (strChars ".img") env.extracted).head? = some c →
        ovaToQcow2 env outPath =
          .ok ["qemu-img", "convert", "-O", "qcow2", charsStr c, outPath]) := by
  refine ⟨?_, ?_, ?_, ?_⟩
  · intro hall
    have hnil : diskCandidates env = [] := by
      unfold diskCandidates globMatches
      rw [List.append_eq_nil, List.append_eq_nil]
      refine ⟨⟨List.filter_eq_nil_iff.mpr ?_, List.filter_eq_nil_iff.mpr ?_⟩,
        List.filter_eq_nil_iff.mpr ?_⟩
      · intro f hf; simp [(hall f hf).1]
      · intro f hf; simp [(hall f hf).2.1]
      · intro f hf; simp [(hall f hf).2.2]
    rw [ovaToQcow2, hnil]
    exact ⟨_, rfl⟩
  · intro c hc
    cases hv : globMatches (strChars ".vmdk") env.extracted with
    | nil => rw [hv] at hc; exact absurd hc (by simp)
    | cons a t =>
      rw [hv] at hc
      simp only [List.head?_cons, Option.some.injEq] at hc
      have hcand : diskCandidates env = a :: (t ++ globMatches (strChars ".qcow2") env.extracted ++
          globMatches (strChars ".img") env.extracted) := by
        unfold diskCandidates
        rw [hv]
        simp
      rw [ovaToQcow2, hcand, ← hc]
  · intro hv c hc
    cases hq : globMatches (strChars ".qcow2") env.extracted with
    | nil => rw [hq] at hc; exact absurd hc (by simp)
    | cons a t =>
      rw [hq] at hc
      simp only [List.head?_cons, Option.some.injEq] at hc
      have hcand : diskCandidates env =
          a :: (t ++ globMatches (strChars ".img") env.extracted) := by
        unfold diskCandidates
        rw [hv, hq]
        simp
      rw [ovaToQcow2, hcand, ← hc]
  · intro hv hq c hc
    cases hi : globMatches (strChars ".img") env.extracted with
    | nil => rw [hi] at hc; exact absurd hc (by simp)
    | cons a t =>
      rw [hi] at hc
      simp only [List.head?_cons, Option.some.injEq] at hc
      have hcand : diskCandidates env = a :: t := by
        unfold diskCandidates
        rw [hv, hq, hi]
        simp
      rw [ovaToQcow2, hcand, ← hc]

/-- Witness for claim C2: an archive with no disk image errors out; an archive
holding both an img and a vmdk selects the vmdk. -/
theorem ovaToQcow2_selection_witness :
    (∃ m, ovaToQcow2 ⟨[strChars "readme.txt"]⟩ "out.qcow2" = .error m) ∧
    ovaToQcow2 ⟨[strChars "a.img", strChars "b.vmdk"]⟩ "out.qcow2" =
      .ok ["qemu-img", "convert", "-O", "qcow2", charsStr (strChars "b.vmdk"), "out.qcow2"] := by
  constructor
  · exact (ovaToQcow2_selection ⟨[strChars "readme.txt"]⟩ "out.qcow2").1 (by decide)
  · exact (ovaToQcow2_selection ⟨[strChars "a.img", strChars "b.vmdk"]⟩ "out.qcow2").2.1
      (strChars "b.vmdk") (by decide)

/-! ## Network compatibility patcher (`VMManager.add_network_compat`)

State: the hosts file content (absent or present), the netplan directory
existence flag, the netplan files written, and the path store.  The random
hex file name suffix drawn by the source is supplied as `randName`, and the
interface index digits as `idx` (the source renders `f"ens{index}"` and
`f"enp0{index}"` from an integer). -/

def hostsPathStr : String := "/etc/hosts"

def ensName (idx : Chars) : Chars := strChars "ens" ++ idx

def enpName (idx : Chars) : Chars := strChars "enp0" ++ idx

/-- The dedented, stripped, newline-terminated hosts alias block of the
debian branch (`textwrap.dedent(...).strip() + "\n"`); faithful whenever the
interpolated mode and index texts contain no newline, which holds for the
CLI's `dhcp`/`static` modes and integer indices. -/
def hostsSnippet (mode : String) (idx : Chars) : Chars :=
  strChars "# vm_manager compat (" ++ strChars mode ++
  strChars ")\n# Compatibilidad OVA/QCOW2: alias " ++ enpName idx ++
  strChars " -> " ++ ensName idx ++
  strChars "\n127.0.1.1 " ++ enpName idx ++
  strChars "\n127.0.1.1 " ++ ensName idx ++ strChars "\n"

/-- Python `text.split(sep)` for a one-character separator (`"".split(",")`
is `[""]`). -/
def splitChar (sep : Char) : Chars → List Chars
  | [] => [[]]
  | c :: rest =>
    if c = sep then [] :: splitChar sep rest
    else
      match splitChar sep rest with
      | [] => [[c]]
      | l :: ls => (c :: l) :: ls

/-- Python truthiness of an optional string (`None` and `""` are falsy). -/
def pyTruthy : Option String → Bool
  | none => false
  | some s => !(s == "")

/-- `[x.strip() for x in (dns or "").split(",") if x.strip()]`. -/
def dnsListOf (dns : Option String) : List Chars :=
  ((splitChar ',' (strChars (dns.getD ""))).map stripChars).filter (fun x => !x.isEmpty)

/-- Python `sep.join(items)`. -/
def joinSep (sep : Chars) : List Chars → Chars
  | [] => []
  | [x] => x
  | x :: xs => x ++ sep ++ joinSep sep xs

/-- The netplan document written in dhcp mode, line by line: the dedent margin
of the template is 12 spaces there (the interpolated `interface_yaml` is the
single line `dhcp4: true`), so the document is the template at its natural
relative indentation, with a trailing newline (final empty line). -/
def netplanDhcpLines (idx : Chars) : List Chars :=
  [ strChars "network:",
    strChars "  version: 2",
    strChars "  renderer: networkd",
    strChars "  ethernets:",
    strChars "    " ++ ensName idx ++ strChars ":",
    strChars "      dhcp4: true",
    strChars "    " ++ enpName idx ++ strChars ":",
    strChars "      dhcp4: true",
    strChars "      optional: true",
    [] ]

def netplanDhcpContent (idx : Chars) : Chars := joinNL (netplanDhcpLines idx)

/-- The `nameservers` block of static mode after the template dedent
(6 spaces removed, see `netplanStaticContent`). -/
def nameserversSuffix (dnsList : List Chars) : Chars :=
  if dnsList.isEmpty then []
  else strChars "\nnameservers:\n  addresses: [" ++ joinSep (strChars ", ") dnsList ++
    strChars "]"

/-- The netplan document written in static mode.  In the source the
interpolated multi-line `interface_yaml` carries its own 6-space indentation,
so `textwrap.dedent` removes only 6 spaces from every template line (not 12):
the template lines keep 6 extra spaces (the leading ones of the first line
then removed by `.strip()`), while the `addresses`/`routes`/`nameservers`
lines land at column 0. -/
def netplanStaticContent (idx ip gw : Chars) (dnsList : List Chars) : Chars :=
  strChars "network:\n        version: 2\n        renderer: networkd\n        ethernets:\n          " ++
  ensName idx ++
  strChars ":\n            dhcp4: false\naddresses: [" ++ ip ++
  strChars "]\nroutes:\n  - to: default\n    via: " ++ gw ++
  nameserversSuffix dnsList ++
  strChars "\n          " ++ enpName idx ++
  strChars ":\n            dhcp4: true\n            optional: true\n"

structure CompatState where
  hostsFile : Option Chars
  netplanDirExists : Bool
  netplanFiles : List (String × Chars)
  store : Store
deriving DecidableEq

/-- `VMManager.add_network_compat` as a state transformer.  Debian branch:
no-op when the hosts file exists and already contains the exact block,
otherwise append `"\n" + snippet` (creating the file when absent) and record
the path.  Other distros: create the netplan directory, then either write the
dhcp document, or - in static mode without a truthy ip_cidr and gateway -
raise `CommandError` (after the directory creation, before any write), or
write the static document; on write, record the path. -/
def addNetworkCompat (distro mode : String) (idx : Chars)
    (ipCidr gateway dns : Option String) (randName : String) (s : CompatState) :
    CompatState × Except CommandError String :=
  if distro == "debian" then
    let snippet := hostsSnippet mode idx
    match s.hostsFile with
    | some c =>
      if containsSub snippet c then (s, .ok hostsPathStr)
      else
        ({ s with
            hostsFile := some (c ++ '\n' :: snippet),
            store := s.store.set "last_hosts_update" hostsPathStr }, .ok hostsPathStr)
    | none =>
      ({ s with
          hostsFile := some ([] ++ '\n' :: snippet),
          store := s.store.set "last_hosts_update" hostsPathStr }, .ok hostsPathStr)
  else
    let outPath := "/etc/netplan/" ++ randName
    let s1 := { s with netplanDirExists := true }
    let dnsList := dnsListOf dns
    if mode == "dhcp" then
      ({ s1 with
          netplanFiles := s1.netplanFiles ++ [(outPath, netplanDhcpContent idx)],
          store := s1.store.set "last_netplan_file" outPath }, .ok outPath)
    else
      if !(pyTruthy ipCidr) || !(pyTruthy gateway) then
        (s1, .error { msg := "Para modo static debes indicar --ip-cidr y --gateway" })
      else
        ({ s1 with
           netplanFiles := s1.netplanFiles ++
             [(outPath, netplanStaticContent idx (strChars (ipCidr.getD ""))
               (strChars (gateway.getD "")) dnsList)],
           store := s1.store.set "last_netplan_file" outPath }, .ok outPath)

/-- Claim C6: on the debian (hosts-file) branch, starting from a hosts file
in which the alias block does not yet occur (also not as a fragment glued at
the end), the first call appends the block and returns the hosts path; the
resulting file contains the block exactly once; and a second call with the
same `(distro, mode, index)` is a no-op: it changes nothing (no write, no
store update) and returns the same path. -/
theorem hosts_compat_idempotent (mode : String) (idx : Chars)
    (ipc gw dns ipc' gw' dns' : Option String) (rand rand' : String) (s : CompatState)
    (H : countOcc (hostsSnippet mode idx)
      ((s.hostsFile.getD []) ++ '\n' :: (hostsSnippet mode idx).dropLast) = 0) :
    (addNetworkCompat "debian" mode idx ipc gw dns rand s).2 = .ok hostsPathStr ∧
    (addNetworkCompat "debian" mode idx ipc gw dns rand s).1.hostsFile =
      some ((s.hostsFile.getD []) ++ '\n' :: hostsSnippet mode idx) ∧
    countOcc (hostsSnippet mode idx)
      (((addNetworkCompat "debian" mode idx ipc gw dns rand s).1.hostsFile).getD []) = 1 ∧
    addNetworkCompat "debian" mode idx ipc' gw' dns' rand'
        (addNetworkCompat "debian" mode idx ipc gw dns rand s).1 =
      ((addNetworkCompat "debian" mode idx ipc gw dns rand s).1, .ok hostsPathStr) := by
  have hsnipne : hostsSnippet mode idx ≠ [] := by
    intro h
    exact absurd (List.append_eq_nil.mp h).2 (by decide)
  have hcont0 : containsSub (hostsSnippet mode idx) (s.hostsFile.getD []) = false := by
    by_contra hb
    have hpos : 0 < countOcc (hostsSnippet mode idx) (s.hostsFile.getD []) :=
      (countOcc_pos_iff _ _).mpr (Bool.of_not_eq_false hb)
    have hle := countOcc_le_append (hostsSnippet mode idx) (s.hostsFile.getD [])
      ('\n' :: (hostsSnippet mode idx).dropLast)
    omega
  have hstep1 : addNetworkCompat "debian" mode idx ipc gw dns rand s =
      ({ s with
          hostsFile := some ((s.hostsFile.getD []) ++ '\n' :: hostsSnippet mode idx),
          store := s.store.set "last_hosts_update" hostsPathStr }, .ok hostsPathStr) := by
    cases hf : s.hostsFile with
    | none => simp [addNetworkCompat, hf]
    | some c =>
      rw [hf] at hcont0
      simp only [Option.getD_some] at hcont0
      simp [addNetworkCompat, hf, hcont0]
  have hcount1 : countOcc (hostsSnippet mode idx)
      ((s.hostsFile.getD []) ++ '\n' :: hostsSnippet mode idx) = 1 := by
    have hc := countOcc_append_self (hostsSnippet mode idx) hsnipne
      ((s.hostsFile.getD []) ++ ['\n']) (by simp)
    rw [List.append_assoc, List.append_assoc] at hc
    simp only [List.singleton_append] at hc
    rw [hc, H]
  refine ⟨?_, ?_, ?_, ?_⟩
  · rw [hstep1]
  · rw [hstep1]
  · rw [hstep1]
    simpa using hcount1
  · rw [hstep1]
    have hmem : containsSub (hostsSnippet mode idx)
        ((s.hostsFile.getD []) ++ '\n' :: hostsSnippet mode idx) = true := by
      apply (containsSub_iff _ _).mpr
      have hx := occursIn_append_self (hostsSnippet mode idx) ((s.hostsFile.getD []) ++ ['\n'])
      rw [List.append_assoc] at hx
      simpa using hx
    simp [addNetworkCompat, hmem]

/-- Witness for claim C6: empty initial state, mode dhcp, index 3. -/
theorem hosts_compat_idempotent_witness :
    (addNetworkCompat "debian" "dhcp" (strChars "3") none none none "r"
      ⟨none, false, [], ⟨[], 0⟩⟩).2 = .ok hostsPathStr ∧
    countOcc (hostsSnippet "dhcp" (strChars "3"))
      (((addNetworkCompat "debian" "dhcp" (strChars "3") none none none "r"
        ⟨none, false, [], ⟨[], 0⟩⟩).1.hostsFile).getD []) = 1 ∧
    addNetworkCompat "debian" "dhcp" (strChars "3") none none none "r"
        (addNetworkCompat "debian" "dhcp" (strChars "3") none none none "r"
          ⟨none, false, [], ⟨[], 0⟩⟩).1 =
      ((addNetworkCompat "debian" "dhcp" (strChars "3") none none none "r"
        ⟨none, false, [], ⟨[], 0⟩⟩).1, .ok hostsPathStr) := by
  have h := hosts_compat_idempotent "dhcp" (strChars "3") none none none none none none
    "r" "r" ⟨none, false, [], ⟨[], 0⟩⟩ (by decide)
  exact ⟨h.1, h.2.2.1, h.2.2.2⟩

/-- Claim C8: on the netplan branch in static mode with ip_cidr or gateway
missing, the call fails with a `CommandError`, no file is written and the
store is untouched, but the netplan directory creation has already happened
and persists. -/
theorem netplan_static_missing_params (idx : Chars) (ipc gw dns : Option String)
    (rand : String) (s : CompatState) (h : ipc = none ∨ gw = none) :
    (∃ m, (addNetworkCompat "ubuntu" "static" idx ipc gw dns rand s).2 = .error m) ∧
    (addNetworkCompat "ubuntu" "static" idx ipc gw dns rand s).1 =
      { s with netplanDirExists := true } := by
  rcases h with rfl | rfl
  · exact ⟨⟨{ msg := "Para modo static debes indicar --ip-cidr y --gateway" },
      by simp [addNetworkCompat, pyTruthy]⟩, by simp [addNetworkCompat, pyTruthy]⟩
  · have hgw : (!(pyTruthy ipc) || !(pyTruthy (none : Option String))) = true := by
      simp [pyTruthy]
    exact ⟨⟨{ msg := "Para modo static debes indicar --ip-cidr y --gateway" },
      by simp [addNetworkCompat, hgw]⟩, by simp [addNetworkCompat, hgw]⟩

/-- Witness for claim C8: static mode with a gateway but no ip_cidr. -/
theorem netplan_static_missing_params_witness :
    (∃ m, (addNetworkCompat "ubuntu" "static" (strChars "3") none (some "192.168.122.1")
      none "f.yaml" ⟨none, false, [], ⟨[], 0⟩⟩).2 = .error m) ∧
    (addNetworkCompat "ubuntu" "static" (strChars "3") none (some "192.168.122.1")
      none "f.yaml" ⟨none, false, [], ⟨[], 0⟩⟩).1 =
      { (⟨none, false, [], ⟨[], 0⟩⟩ : CompatState) with netplanDirExists := true } :=
  netplan_static_missing_params (strChars "3") none (some "192.168.122.1") none "f.yaml"
    ⟨none, false, [], ⟨[], 0⟩⟩ (Or.inl rfl)

/-- Claim C9: on the netplan branch in dhcp mode the written document is
independent of any supplied DNS list (the DNS servers are silently ignored)
and contains no `nameservers` section. -/
theorem netplan_dhcp_no_nameservers (idx : Chars) (ipc gw dns dns' : Option String)
    (rand : String) (s : CompatState)
    (hIdx : ∀ c ∈ idx, c.isDigit = true) :
    addNetworkCompat "ubuntu" "dhcp" idx ipc gw dns rand s =
      addNetworkCompat "ubuntu" "dhcp" idx ipc gw dns' rand s ∧
    (addNetworkCompat "ubuntu" "dhcp" idx ipc gw dns rand s).1.netplanFiles =
      s.netplanFiles ++ [("/etc/netplan/" ++ rand, netplanDhcpContent idx)] ∧
    ¬ OccursIn (strChars "nameservers") (netplanDhcpContent idx) := by
  refine ⟨rfl, rfl, ?_⟩
  apply not_occursIn_joinNL _ (by decide) (by decide)
  intro line hl
  simp only [netplanDhcpLines, List.mem_cons, List.not_mem_nil, or_false] at hl
  rcases hl with rfl | rfl | rfl | rfl | rfl | rfl | rfl | rfl | rfl | rfl
  · exact not_occursIn_of_containsSub_false _ _ (by decide)
  · exact not_occursIn_of_containsSub_false _ _ (by decide)
  · exact not_occursIn_of_containsSub_false _ _ (by decide)
  · exact not_occursIn_of_containsSub_false _ _ (by decide)
  · intro hocc
    have hm := occursIn_mem _ _ 'm' hocc (by decide)
    rcases List.mem_append.mp hm with hm1 | hm2
    · rcases List.mem_append.mp hm1 with hm3 | hm4
      · exact absurd hm3 (by decide)
      · rcases List.mem_append.mp (by simpa [ensName] using hm4 :
            'm' ∈ strChars "ens" ++ idx) with hm5 | hm6
        · exact absurd hm5 (by decide)
        · exact absurd (hIdx 'm' hm6) (by decide)
    · exact absurd hm2 (by decide)
  · exact not_occursIn_of_containsSub_false _ _ (by decide)
  · intro hocc
    have hm := occursIn_mem _ _ 'm' hocc (by decide)
    rcases List.mem_append.mp hm with hm1 | hm2
    · rcases List.mem_append.mp hm1 with hm3 | hm4
      · exact absurd hm3 (by decide)
      · rcases List.mem_append.mp (by simpa [enpName] using hm4 :
            'm' ∈ strChars "enp0" ++ idx) with hm5 | hm6
        · exact absurd hm5 (by decide)
        · exact absurd (hIdx 'm' hm6) (by decide)
    · exact absurd hm2 (by decide)
  · exact not_occursIn_of_containsSub_false _ _ (by decide)
  · exact not_occursIn_of_containsSub_false _ _ (by decide)
  · exact not_occursIn_of_containsSub_false _ _ (by decide)

/-- Witness for claim C9: dhcp mode with a DNS list supplied. -/
theorem netplan_dhcp_no_nameservers_witness :
    addNetworkCompat "ubuntu" "dhcp" (strChars "3") none none (some "8.8.8.8,1.1.1.1")
        "f.yaml" ⟨none, false, [], ⟨[], 0⟩⟩ =
      addNetworkCompat "ubuntu" "dhcp" (strChars "3") none none none
        "f.yaml" ⟨none, false, [], ⟨[], 0⟩⟩ ∧
    ¬ OccursIn (strChars "nameservers") (netplanDhcpContent (strChars "3")) := by
  have h := netplan_dhcp_no_nameservers (strChars "3") none none
    (some "8.8.8.8,1.1.1.1") none "f.yaml" ⟨none, false, [], ⟨[], 0⟩⟩ (by decide)
  exact ⟨h.1, h.2.2⟩

/-! ## CLI path resolution (`resolve_with_saved`, `main` conversion branches)

`resolve_with_saved(value, key, store, hint)` returns `Path(value)` when the
argument is truthy, else the stored value for `key` when truthy, else raises
`CommandError`; `main` resolves both paths before constructing any conversion
call, and catches `CommandError` at top level, printing and returning exit
status 1.  The filesystem/process side effects a successful conversion would
perform are abstracted as the `run` parameter producing an effect trace; a
failing resolution yields exit status 1 with an empty trace. -/

inductive Effect where
  | externalCmd (cmd : List String)
  | fileWrite (path : String)
deriving DecidableEq, Repr

def resolveWithSaved (value : Option String) (key : String) (store : Store)
    (hint : String) : Except CommandError String :=
  if pyTruthy value then .ok (value.getD "")
  else
    let saved := store.get key
    if pyTruthy saved then .ok (saved.getD "")
    else .error { msg := "No se indicó ruta y no hay valor guardado para " ++ hint }

/-- The shared shape of the `ova-to-qcow2` and `qcow2-to-ova` branches of
`main`: resolve the two paths (raising before any tool or filesystem use),
then run the conversion. -/
def convertDispatch (arg1 arg2 : Option String) (key1 key2 hint1 hint2 : String)
    (store : Store) (run : String → String → List Effect) : Nat × List Effect :=
  match resolveWithSaved arg1 key1 store hint1 with
  | .error _ => (1, [])
  | .ok p1 =>
    match resolveWithSaved arg2 key2 store hint2 with
    | .error _ => (1, [])
    | .ok p2 => (0, run p1 p2)

def mainOvaToQcow2 (argOva argOut : Option String) (store : Store)
    (run : String → String → List Effect) : Nat × List Effect :=
  convertDispatch argOva argOut "last_ova_input" "last_qcow2_output"
    "entrada OVA" "salida QCOW2" store run

def mainQcow2ToOva (argQcow2 argOut : Option String) (store : Store)
    (run : String → String → List Effect) : Nat × List Effect :=
  convertDispatch argQcow2 argOut "last_qcow2_input" "last_ova_output"
    "entrada QCOW2" "salida OVA" store run

theorem resolveWithSaved_none_none (key : String) (store : Store) (hint : String)
    (h : store.get key = none) :
    resolveWithSaved none key store hint =
      .error { msg := "No se indicó ruta y no hay valor guardado para " ++ hint } := by
  rw [resolveWithSaved]
  simp [pyTruthy, h]

/-- Claim C10: in the two conversion CLI branches, an omitted path argument
whose fixed store key holds no value makes the operation fail with exit
status 1 and an empty effect trace - no external tool invoked, no filesystem
touched - for any conversion behaviour `run`.  (The store's own database file
initialisation happens unconditionally at startup and is outside the trace.) -/
theorem convert_cli_missing_paths (store : Store) (run : String → String → List Effect)
    (other : Option String) :
    (store.get "last_ova_input" = none → mainOvaToQcow2 none other store run = (1, [])) ∧
    (store.get "last_qcow2_output" = none → mainOvaToQcow2 other none store run = (1, [])) ∧
    (store.get "last_qcow2_input" = none → mainQcow2ToOva none other store run = (1, [])) ∧
    (store.get "last_ova_output" = none → mainQcow2ToOva other none store run = (1, [])) := by
  refine ⟨?_, ?_, ?_, ?_⟩
  · intro h
    rw [mainOvaToQcow2, convertDispatch, resolveWithSaved_none_none _ _ _ h]
  · intro h
    rw [mainOvaToQcow2, convertDispatch]
    cases hr : resolveWithSaved other "last_ova_input" store "entrada OVA" with
    | error e => rfl
    | ok p1 => rw [resolveWithSaved_none_none _ _ _ h]
  · intro h
    rw [mainQcow2ToOva, convertDispatch, resolveWithSaved_none_none _ _ _ h]
  · intro h
    rw [mainQcow2ToOva, convertDispatch]
    cases hr : resolveWithSaved other "last_qcow2_input" store "entrada QCOW2" with
    | error e => rfl
    | ok p1 => rw [resolveWithSaved_none_none _ _ _ h]

/-- Witness for claim C10 on the empty store, with a conversion behaviour
that would touch the world if it ran. -/
theorem convert_cli_missing_paths_witness :
    mainOvaToQcow2 none none (Store.mk [] 0)
      (fun p1 p2 => [.externalCmd ["qemu-img", "convert", "-O", "qcow2", p1, p2]]) = (1, []) ∧
    mainQcow2ToOva none none (Store.mk [] 0)
      (fun p1 p2 => [.externalCmd ["qemu-img", "convert", p1, p2]]) = (1, []) := by
  constructor
  · exact (convert_cli_missing_paths (Store.mk [] 0) _ none).1 (by decide)
  · exact (convert_cli_missing_paths (Store.mk [] 0) _ none).2.2.1 (by decide)

end VmMgr
